import Mathlib

/-
  Verification development for the iFOD2 streamline-propagation core
  (src/dwi/tractography/iFOD2.h) and the warp bounds-check utility
  (cmd/warpcorrect.cpp).

  Modelling conventions:
  * value_type (a floating-point type in the source) is modelled as an
    arbitrary linearly ordered field alpha; NaN is modelled explicitly as
    the value none of Option alpha wherever the source can produce or
    test NaN (field amplitudes, path probabilities).  Floating-point
    rounding and infinities are outside the model.
  * C comparisons involving NaN are false; this is reflected by the
    Option-valued comparisons below (a none never satisfies a strict
    comparison).
  * Randomness is injected through explicit oracle streams: the n-th
    probe path probability, the n-th sampling-loop path probability
    (with its final position and tangent), and the n-th uniform draw.
    This makes each routine a deterministic function of its oracles,
    exactly as the source is a deterministic function of its rng stream.
  * Trigonometric and square-root operations are passed as function
    parameters (rsin, rcos, racos, rsqrt) so that every definition stays
    computable; the theorems about arc geometry instantiate them with
    Real.sin, Real.cos, Real.arccos and Real.sqrt.
-/

namespace MR

/-- 3-component point/vector, after Point<value_type> (point.h). -/
structure Point (α : Type) where
  x : α
  y : α
  z : α
deriving DecidableEq

instance {α : Type} [Add α] : Add (Point α) :=
  ⟨fun u v => ⟨u.x + v.x, u.y + v.y, u.z + v.z⟩⟩

instance {α : Type} [Sub α] : Sub (Point α) :=
  ⟨fun u v => ⟨u.x - v.x, u.y - v.y, u.z - v.z⟩⟩

instance {α : Type} [Mul α] : SMul α (Point α) :=
  ⟨fun a v => ⟨a * v.x, a * v.y, a * v.z⟩⟩

/-- Dot product of two 3-vectors (Point::dot). -/
def Point.dot {α : Type} [Mul α] [Add α] (u v : Point α) : α :=
  u.x * v.x + u.y * v.y + u.z * v.z

/-- Modelled from the spec: Point::normalise (point.h, not under src/)
rescales a vector to unit length by dividing each component by the
Euclidean norm; the square root is supplied as the parameter rsqrt. -/
def Point.normalise {α : Type} [Field α] (rsqrt : α → α) (u : Point α) : Point α :=
  let n := rsqrt (u.dot u)
  ⟨u.x / n, u.y / n, u.z / n⟩

@[simp] lemma Point.add_x {α : Type} [Add α] (u v : Point α) : (u + v).x = u.x + v.x := rfl
@[simp] lemma Point.add_y {α : Type} [Add α] (u v : Point α) : (u + v).y = u.y + v.y := rfl
@[simp] lemma Point.add_z {α : Type} [Add α] (u v : Point α) : (u + v).z = u.z + v.z := rfl
@[simp] lemma Point.sub_x {α : Type} [Sub α] (u v : Point α) : (u - v).x = u.x - v.x := rfl
@[simp] lemma Point.sub_y {α : Type} [Sub α] (u v : Point α) : (u - v).y = u.y - v.y := rfl
@[simp] lemma Point.sub_z {α : Type} [Sub α] (u v : Point α) : (u - v).z = u.z - v.z := rfl
@[simp] lemma Point.smul_x {α : Type} [Mul α] (a : α) (v : Point α) : (a • v).x = a * v.x := rfl
@[simp] lemma Point.smul_y {α : Type} [Mul α] (a : α) (v : Point α) : (a • v).y = a * v.y := rfl
@[simp] lemma Point.smul_z {α : Type} [Mul α] (a : α) (v : Point α) : (a • v).z = a * v.z := rfl

/-- Immutable per-run configuration, after iFOD2::Shared / SharedBase.
In the source prob_threshold is computed as threshold ^ num_samples at
construction; it is kept as a field here. -/
structure Cfg (α : Type) where
  num_samples : ℕ
  max_trials : ℕ
  step_size : α
  threshold : α
  init_threshold : α
  prob_threshold : α
  init_dir : Option (Point α)
deriving DecidableEq

/-- Per-streamline mutable state of iFOD2 (members of MethodBase and
iFOD2: pos, dir, prev_prob_val, mean_sample_num, num_sample_runs). -/
structure State (α : Type) where
  pos : Point α
  dir : Point α
  prev_prob_val : Option α
  mean_sample_num : ℕ
  num_sample_runs : ℕ
deriving DecidableEq

/-- Result of one rand_path_prob call inside the sampling loop of next:
the returned probability (none models NaN) and the final position and
tangent it wrote into next_pos / next_dir on a non-NaN return. -/
structure Trial (α : Type) where
  prob : Option α
  tpos : Point α
  tdir : Point α
deriving DecidableEq

/-- The envelope probe of iFOD2::next, lines 110-115: 100 calls to
rand_path_prob, keeping the running maximum under C comparison semantics
(a NaN value, modelled as none, never updates the maximum, since
val > max_val_actual is false for NaN val).  The result is therefore
always an ordinary (non-NaN) value, starting from 0.0. -/
def probeMax {α : Type} [LinearOrderedField α] (probe : ℕ → Option α) : α :=
  (List.range 100).foldl
    (fun acc n =>
      match probe n with
      | none => acc
      | some v => if acc < v then v else acc) 0

/-- The MAX macro applied at line 116 to (prev_prob_val, max_val_actual):
MAX(a,b) = (a > b ? a : b) under C comparison semantics, where the first
argument may be NaN (none) but the second is an ordinary value.  A NaN
first argument loses the comparison, so the result is always ordinary;
consequently the isnan(max_val) test at line 119 can never fire and is
not represented by a branch here. -/
def cMAX {α : Type} [LinearOrderedField α] (p : Option α) (b : α) : α :=
  match p with
  | none => b
  | some a => if b < a then a else b

/-- The rejection-sampling loop of iFOD2::next, lines 125-141, over the
list of remaining trial indices.  On val > prob_threshold and
uniform < val/max_val the candidate is accepted: the tangent is stored
and normalised into dir, the position into pos, and the diagnostic
counters are advanced; otherwise the loop continues and finally returns
not-accepted with the state unchanged. -/
def nextLoop {α : Type} [LinearOrderedField α] (S : Cfg α) (rsqrt : α → α)
    (max_val : α) (st : State α) (trials : ℕ → Trial α) (unif : ℕ → α) :
    List ℕ → Bool × State α
  | [] => (false, st)
  | n :: rest =>
    match (trials n).prob with
    | none => nextLoop S rsqrt max_val st trials unif rest
    | some v =>
      if S.prob_threshold < v then
        if unif n < v / max_val then
          (true, { st with
            dir := Point.normalise rsqrt (trials n).tdir,
            pos := (trials n).tpos,
            mean_sample_num := st.mean_sample_num + n,
            num_sample_runs := st.num_sample_runs + 1 })
        else nextLoop S rsqrt max_val st trials unif rest
      else nextLoop S rsqrt max_val st trials unif rest

/-- iFOD2::next (lines 106-144).  The probe (line 111-115) is abstracted
by the oracle stream probe; the loop trials and the uniform draws by the
streams trials and unif.  Faithful control flow: max_val is the MAX of
prev_prob_val and the probe maximum (line 116); prev_prob_val is then
overwritten with the probe maximum unconditionally (line 117); the
probe-failure check (line 119) compares max_val against prob_threshold
BEFORE the multiplication by 1.5 (line 121); the trial budget (line 123)
is 10000 when the probe maximum exceeded prob_threshold and max_trials
otherwise. -/
def next {α : Type} [LinearOrderedField α] (S : Cfg α) (rsqrt : α → α)
    (st : State α) (probe : ℕ → Option α) (trials : ℕ → Trial α) (unif : ℕ → α) :
    Bool × State α :=
  let mva := probeMax probe
  let max_val := cMAX st.prev_prob_val mva
  let st1 := { st with prev_prob_val := some mva }
  if max_val < S.prob_threshold then (false, st1)
  else
    nextLoop S rsqrt (max_val * (3 / 2)) st1 trials unif
      (List.range (if S.prob_threshold < mva then 10000 else S.max_trials))

/-- The amplitude-accumulation loop of iFOD2::rand_path_prob, lines
171-177, over the list of remaining sample indices, threading the
running product.  amp i is the field amplitude FOD(positions[i],
tangents[i]) (none models NaN, e.g. a position outside the data).
Returns none (NaN) as soon as a sample amplitude is NaN or strictly
below the amplitude threshold. -/
def pathProbAux {α : Type} [LinearOrderedField α] (thr : α) (amp : ℕ → Option α) :
    List ℕ → α → Option α
  | [], prob => some prob
  | i :: rest, prob =>
    match amp i with
    | none => none
    | some a => if a < thr then none else pathProbAux thr amp rest (prob * a)

/-- iFOD2::rand_path_prob (lines 166-183).  samples i abstracts the
(positions[i], tangents[i]) pair filled in by get_path; the loop reads
indices 0 .. num_samples-1 and, on success, next_pos / next_dir receive
the entries at index num_samples-1.  fod is the field-amplitude oracle
FOD(position, direction) (none models NaN); on a NaN return next_pos /
next_dir are not written, which is modelled by returning none with no
accompanying pair. -/
def rand_path_prob {α : Type} [LinearOrderedField α] (S : Cfg α)
    (fod : Point α → Point α → Option α) (samples : ℕ → Point α × Point α) :
    Option (α × Point α × Point α) :=
  match pathProbAux S.threshold (fun i => fod (samples i).1 (samples i).2)
      (List.range S.num_samples) 1 with
  | none => none
  | some prob =>
    some (prob, (samples (S.num_samples - 1)).1, (samples (S.num_samples - 1)).2)

/-- Result of iFOD2::init: the returned flag, the direction member after
the call, prev_prob_val as set by the call (none when init did not set
it), and instrumentation counting the random direction draws and the
FOD evaluations the call consumed. -/
structure InitResult (α : Type) where
  ok : Bool
  dir : Point α
  prev : Option α
  rng_draws : ℕ
  fod_evals : ℕ
deriving DecidableEq

/-- The random-seeding loop of iFOD2::init, lines 80-90: up to
max_trials random directions (rngdir n is the n-th raw direction drawn
from three normal deviates, before normalisation); a trial succeeds
when its amplitude is non-NaN and strictly above init_threshold, and
prev_prob_val is seeded with amplitude ^ num_samples. -/
def initLoop {α : Type} [LinearOrderedField α] (S : Cfg α) (rsqrt : α → α)
    (fod : Point α → Option α) (rngdir : ℕ → Point α) (dcur : Point α) :
    List ℕ → InitResult α
  | [] => { ok := false, dir := dcur, prev := none, rng_draws := 0, fod_evals := 0 }
  | n :: rest =>
    let d := Point.normalise rsqrt (rngdir n)
    match fod d with
    | none =>
      let r := initLoop S rsqrt fod rngdir d rest
      { r with rng_draws := r.rng_draws + 1, fod_evals := r.fod_evals + 1 }
    | some v =>
      if S.init_threshold < v then
        { ok := true, dir := d, prev := some (v ^ S.num_samples),
          rng_draws := 1, fod_evals := 1 }
      else
        let r := initLoop S rsqrt fod rngdir d rest
        { r with rng_draws := r.rng_draws + 1, fod_evals := r.fod_evals + 1 }

/-- iFOD2::init (lines 75-104).  have_data models the initial
get_data() call (line 77); d0 is the direction member's value before
the call.  With a configured fixed initial direction (lines 92-101) the
amplitude is evaluated once and the call succeeds iff it is defined
(finite, here: some) and strictly exceeds init_threshold, seeding
prev_prob_val with amplitude ^ num_samples; no random draw is consumed. -/
def init {α : Type} [LinearOrderedField α] (S : Cfg α) (rsqrt : α → α)
    (fod : Point α → Option α) (rngdir : ℕ → Point α) (have_data : Bool)
    (d0 : Point α) : InitResult α :=
  match have_data with
  | false => { ok := false, dir := d0, prev := none, rng_draws := 0, fod_evals := 0 }
  | true =>
    match S.init_dir with
    | none => initLoop S rsqrt fod rngdir d0 (List.range S.max_trials)
    | some d =>
      match fod d with
      | none => { ok := false, dir := d, prev := none, rng_draws := 0, fod_evals := 1 }
      | some v =>
        if S.init_threshold < v then
          { ok := true, dir := d, prev := some (v ^ S.num_samples),
            rng_draws := 0, fod_evals := 1 }
        else
          { ok := false, dir := d, prev := none, rng_draws := 0, fod_evals := 1 }

/-- The cos_theta computation of iFOD2::get_path, lines 191-192: the
dot product of the perturbed end direction with the current direction,
clamped from above at 1 only (std::min against 1.0; there is no lower
clamp at -1 in the source). -/
def cos_theta_code {α : Type} [LinearOrderedField α] (dir end_dir : Point α) : α :=
  min (end_dir.dot dir) 1

/-- Spec-side definition, from the spec words only, to be compared with
cos_theta_code: the dot product clamped to the interval [-1, 1], both
at -1 from below and at +1 from above. -/
def cos_theta_spec {α : Type} [LinearOrderedField α] (dir end_dir : Point α) : α :=
  max (min (end_dir.dot dir) 1) (-1)

/-- iFOD2::get_path (lines 188-217), with the perturbed end direction
taken as an input (the source draws it via rand_dir; randomness is
upstream of this generator).  The curved branch (theta nonzero, lines
195-208) emits num_samples - 1 interior samples followed by the final
sample whose tangent is end_dir itself; the straight branch (lines
210-216) runs its loop for i = 0 .. num_samples INCLUSIVE, emitting
num_samples + 1 samples exactly as the source loop writes them. -/
def get_path {α : Type} [LinearOrderedField α] [DecidableEq α]
    (rsin rcos racos rsqrt : α → α) (S : Cfg α) (pos dir end_dir : Point α) :
    List (Point α × Point α) :=
  let cos_theta := cos_theta_code dir end_dir
  let theta := racos cos_theta
  if theta = 0 then
    (List.range (S.num_samples + 1)).map (fun (i : ℕ) =>
      (pos + (((i : α) + 1) * (S.step_size / (S.num_samples : α))) • dir, dir))
  else
    let curv := Point.normalise rsqrt (end_dir - cos_theta • dir)
    let R := S.step_size / theta
    ((List.range (S.num_samples - 1)).map (fun (i : ℕ) =>
      let a := (theta * ((i : α) + 1)) / (S.num_samples : α)
      (pos + R • (rsin a • dir + (1 - rcos a) • curv),
       rcos a • dir + rsin a • curv)))
    ++ [(pos + R • (rsin theta • dir + (1 - cos_theta) • curv), end_dir)]

/-- Arc angle of the i-th sample in the curved case: theta * (i+1) /
num_samples, as computed in the loop at line 201. -/
def arcAngle {α : Type} [LinearOrderedField α] (theta : α) (n i : ℕ) : α :=
  (theta * ((i : α) + 1)) / (n : α)

/-- Closed-form position of the i-th curved-case sample. -/
def arcPos {α : Type} [LinearOrderedField α] (rsin rcos : α → α)
    (pos dir curv : Point α) (R theta : α) (n i : ℕ) : Point α :=
  pos + R • (rsin (arcAngle theta n i) • dir +
    (1 - rcos (arcAngle theta n i)) • curv)

/-- Closed-form tangent of the i-th curved-case sample. -/
def arcTan {α : Type} [LinearOrderedField α] (rsin rcos : α → α)
    (dir curv : Point α) (theta : α) (n i : ℕ) : Point α :=
  rcos (arcAngle theta n i) • dir + rsin (arcAngle theta n i) • curv

/-- none-propagating subtraction on possibly-NaN scalars. -/
def osub {α : Type} [Sub α] : Option α → Option α → Option α
  | some a, some b => some (a - b)
  | _, _ => none

/-- A 3-vector of possibly-NaN components, for the warpcorrect model. -/
structure FV3 (α : Type) where
  c1 : Option α
  c2 : Option α
  c3 : Option α
deriving DecidableEq

/-- Componentwise difference of two possibly-NaN 3-vectors. -/
def FV3.sub {α : Type} [Sub α] (u v : FV3 α) : FV3 α :=
  ⟨osub u.c1 v.c1, osub u.c2 v.c2, osub u.c3 v.c3⟩

/-- Eigen hasNaN(): some component is NaN. -/
def FV3.hasNaN {α : Type} (v : FV3 α) : Bool :=
  v.c1.isNone || v.c2.isNone || v.c3.isNone

/-- Modelled from the spec: Eigen DenseBase::isMuchSmallerThan(other,
prec) (the library is not part of this repository's sources) compares
the sum of squared components against abs2(prec * other); any NaN
component makes the comparison false. -/
def FV3.isMuchSmallerThan {α : Type} [LinearOrderedField α]
    (v : FV3 α) (other prec : α) : Bool :=
  match v.c1, v.c2, v.c3 with
  | some a, some b, some c => decide (a ^ 2 + b ^ 2 + c ^ 2 ≤ (prec * other) ^ 2)
  | _, _, _ => false

/-- Modelled from the spec: Eigen NumTraits<float>::dummy_precision()
is the constant 1e-5f; float rounding of the literal is not modelled. -/
def dummy_precision (α : Type) [LinearOrderedField α] : α := 1 / 100000

/-- BoundsCheck::operator() of cmd/warpcorrect.cpp, lines 60-72, for
one voxel: vec is the configured marker, val the input 3-vector, count
the functor's running match count.  Returns the output 3-vector and the
new count: on a match every output component is NaN and the count is
incremented; otherwise the input components are copied through. -/
def boundsCheck {α : Type} [LinearOrderedField α]
    (tolerance : α) (vec val : FV3 α) (count : ℕ) : FV3 α × ℕ :=
  if (FV3.sub vec val).isMuchSmallerThan tolerance (dummy_precision α)
      || (vec.hasNaN && val.hasNaN) then
    (⟨none, none, none⟩, count + 1)
  else (val, count)

lemma pathProbAux_eq_none_iff {α : Type} [LinearOrderedField α]
    (thr : α) (amp : ℕ → Option α) :
    ∀ (l : List ℕ) (acc : α), pathProbAux thr amp l acc = none ↔
      ∃ i ∈ l, amp i = none ∨ ∃ a, amp i = some a ∧ a < thr := by
  intro l
  induction l with
  | nil => intro acc; simp [pathProbAux]
  | cons i rest ih =>
    intro acc
    cases h : amp i with
    | none =>
      simp only [pathProbAux, h]
      constructor
      · intro _; exact ⟨i, List.mem_cons_self i rest, Or.inl h⟩
      · intro _; trivial
    | some a =>
      by_cases hlt : a < thr
      · simp only [pathProbAux, h, if_pos hlt]
        constructor
        · intro _; exact ⟨i, List.mem_cons_self i rest, Or.inr ⟨a, h, hlt⟩⟩
        · intro _; trivial
      · simp only [pathProbAux, h, if_neg hlt]
        rw [ih]
        constructor
        · rintro ⟨j, hj, hbad⟩; exact ⟨j, List.mem_cons_of_mem _ hj, hbad⟩
        · rintro ⟨j, hj, hbad⟩
          rcases List.mem_cons.mp hj with rfl | hj2
          · exfalso
            rcases hbad with hnone | ⟨b, hb, hblt⟩
            · rw [h] at hnone; cases hnone
            · rw [h] at hb; injection hb with hb; subst hb; exact hlt hblt
          · exact ⟨j, hj2, hbad⟩

lemma pathProbAux_eq_some {α : Type} [LinearOrderedField α]
    (thr : α) (amp : ℕ → Option α) (g : ℕ → α) :
    ∀ (l : List ℕ) (acc : α), (∀ i ∈ l, amp i = some (g i) ∧ thr ≤ g i) →
      pathProbAux thr amp l acc = some (acc * (l.map g).prod) := by
  intro l
  induction l with
  | nil => intro acc _; simp [pathProbAux]
  | cons i rest ih =>
    intro acc hgood
    have hi := hgood i (List.mem_cons_self i rest)
    simp only [pathProbAux, hi.1, if_neg (not_lt.mpr hi.2)]
    rw [ih (acc * g i) (fun j hj => hgood j (List.mem_cons_of_mem _ hj))]
    rw [List.map_cons, List.prod_cons, mul_assoc]

lemma foldl_id_nat {α : Type} :
    ∀ (l : List ℕ) (a : α), List.foldl (fun a (_ : ℕ) => a) a l = a := by
  intro l
  induction l with
  | nil => intro a; rfl
  | cons n rest ih => intro a; simp only [List.foldl_cons]; exact ih a

lemma probeMax_none {α : Type} [LinearOrderedField α] :
    probeMax (fun _ => (none : Option α)) = 0 := by
  unfold probeMax
  exact foldl_id_nat (List.range 100) 0

/-- Unfolding equation for next, separating the probe-failure check
from the sampling loop. -/
lemma next_eq {α : Type} [LinearOrderedField α] (S : Cfg α) (rsqrt : α → α)
    (st : State α) (probe : ℕ → Option α) (trials : ℕ → Trial α) (unif : ℕ → α) :
    next S rsqrt st probe trials unif =
      if cMAX st.prev_prob_val (probeMax probe) < S.prob_threshold then
        (false, { st with prev_prob_val := some (probeMax probe) })
      else
        nextLoop S rsqrt (cMAX st.prev_prob_val (probeMax probe) * (3 / 2))
          { st with prev_prob_val := some (probeMax probe) } trials unif
          (List.range (if S.prob_threshold < probeMax probe then 10000 else S.max_trials)) :=
  rfl

lemma nextLoop_accept {α : Type} [LinearOrderedField α] (S : Cfg α) (rsqrt : α → α)
    (mv : α) (st : State α) (trials : ℕ → Trial α) (unif : ℕ → α) :
    ∀ l : List ℕ, (nextLoop S rsqrt mv st trials unif l).1 = true →
      ∃ n ∈ l, ∃ v, (trials n).prob = some v ∧ S.prob_threshold < v ∧ unif n < v / mv ∧
        (nextLoop S rsqrt mv st trials unif l).2 = { st with
          dir := Point.normalise rsqrt (trials n).tdir,
          pos := (trials n).tpos,
          mean_sample_num := st.mean_sample_num + n,
          num_sample_runs := st.num_sample_runs + 1 } := by
  intro l
  induction l with
  | nil => intro h; cases h
  | cons n rest ih =>
    intro h
    cases hp : (trials n).prob with
    | none =>
      have hstep : nextLoop S rsqrt mv st trials unif (n :: rest) =
          nextLoop S rsqrt mv st trials unif rest := by
        simp only [nextLoop, hp]
      rw [hstep] at h ⊢
      obtain ⟨m, hm, rest'⟩ := ih h
      exact ⟨m, List.mem_cons_of_mem _ hm, rest'⟩
    | some v =>
      by_cases h1 : S.prob_threshold < v
      · by_cases h2 : unif n < v / mv
        · have hstep : nextLoop S rsqrt mv st trials unif (n :: rest) =
              (true, { st with
                dir := Point.normalise rsqrt (trials n).tdir,
                pos := (trials n).tpos,
                mean_sample_num := st.mean_sample_num + n,
                num_sample_runs := st.num_sample_runs + 1 }) := by
            simp only [nextLoop, hp, if_pos h1, if_pos h2]
          rw [hstep]
          exact ⟨n, List.mem_cons_self n rest, v, hp, h1, h2, rfl⟩
        · have hstep : nextLoop S rsqrt mv st trials unif (n :: rest) =
              nextLoop S rsqrt mv st trials unif rest := by
            simp only [nextLoop, hp, if_pos h1, if_neg h2]
          rw [hstep] at h ⊢
          obtain ⟨m, hm, rest'⟩ := ih h
          exact ⟨m, List.mem_cons_of_mem _ hm, rest'⟩
      · have hstep : nextLoop S rsqrt mv st trials unif (n :: rest) =
            nextLoop S rsqrt mv st trials unif rest := by
          simp only [nextLoop, hp, if_neg h1]
        rw [hstep] at h ⊢
        obtain ⟨m, hm, rest'⟩ := ih h
        exact ⟨m, List.mem_cons_of_mem _ hm, rest'⟩

lemma nextLoop_false_state {α : Type} [LinearOrderedField α] (S : Cfg α) (rsqrt : α → α)
    (mv : α) (st : State α) (trials : ℕ → Trial α) (unif : ℕ → α) :
    ∀ l : List ℕ, (nextLoop S rsqrt mv st trials unif l).1 = false →
      (nextLoop S rsqrt mv st trials unif l).2 = st := by
  intro l
  induction l with
  | nil => intro _; rfl
  | cons n rest ih =>
    intro h
    cases hp : (trials n).prob with
    | none =>
      have hstep : nextLoop S rsqrt mv st trials unif (n :: rest) =
          nextLoop S rsqrt mv st trials unif rest := by
        simp only [nextLoop, hp]
      rw [hstep] at h ⊢
      exact ih h
    | some v =>
      by_cases h1 : S.prob_threshold < v
      · by_cases h2 : unif n < v / mv
        · have hstep : (nextLoop S rsqrt mv st trials unif (n :: rest)).1 = true := by
            simp only [nextLoop, hp, if_pos h1, if_pos h2]
          rw [hstep] at h; cases h
        · have hstep : nextLoop S rsqrt mv st trials unif (n :: rest) =
              nextLoop S rsqrt mv st trials unif rest := by
            simp only [nextLoop, hp, if_pos h1, if_neg h2]
          rw [hstep] at h ⊢
          exact ih h
      · have hstep : nextLoop S rsqrt mv st trials unif (n :: rest) =
            nextLoop S rsqrt mv st trials unif rest := by
          simp only [nextLoop, hp, if_neg h1]
        rw [hstep] at h ⊢
        exact ih h

lemma nextLoop_exhaust {α : Type} [LinearOrderedField α] (S : Cfg α) (rsqrt : α → α)
    (mv : α) (st : State α) (trials : ℕ → Trial α) (unif : ℕ → α) :
    ∀ l : List ℕ,
      (∀ n ∈ l, ¬ ∃ v, (trials n).prob = some v ∧ S.prob_threshold < v ∧ unif n < v / mv) →
      (nextLoop S rsqrt mv st trials unif l).1 = false := by
  intro l
  induction l with
  | nil => intro _; rfl
  | cons n rest ih =>
    intro hnone
    have hrest : ∀ m ∈ rest,
        ¬ ∃ v, (trials m).prob = some v ∧ S.prob_threshold < v ∧ unif m < v / mv :=
      fun m hm => hnone m (List.mem_cons_of_mem _ hm)
    cases hp : (trials n).prob with
    | none =>
      have hstep : nextLoop S rsqrt mv st trials unif (n :: rest) =
          nextLoop S rsqrt mv st trials unif rest := by
        simp only [nextLoop, hp]
      rw [hstep]
      exact ih hrest
    | some v =>
      by_cases h1 : S.prob_threshold < v
      · by_cases h2 : unif n < v / mv
        · exact absurd ⟨v, hp, h1, h2⟩ (hnone n (List.mem_cons_self n rest))
        · have hstep : nextLoop S rsqrt mv st trials unif (n :: rest) =
              nextLoop S rsqrt mv st trials unif rest := by
            simp only [nextLoop, hp, if_pos h1, if_neg h2]
          rw [hstep]
          exact ih hrest
      · have hstep : nextLoop S rsqrt mv st trials unif (n :: rest) =
            nextLoop S rsqrt mv st trials unif rest := by
          simp only [nextLoop, hp, if_neg h1]
        rw [hstep]
        exact ih hrest

lemma nextLoop_prev {α : Type} [LinearOrderedField α] (S : Cfg α) (rsqrt : α → α)
    (mv : α) (st : State α) (trials : ℕ → Trial α) (unif : ℕ → α) (l : List ℕ) :
    ((nextLoop S rsqrt mv st trials unif l).2).prev_prob_val = st.prev_prob_val := by
  cases hb : (nextLoop S rsqrt mv st trials unif l).1 with
  | false => rw [nextLoop_false_state S rsqrt mv st trials unif l hb]
  | true =>
    obtain ⟨n, _, v, _, _, _, hstate⟩ := nextLoop_accept S rsqrt mv st trials unif l hb
    rw [hstate]

/-- C6: rand_path_prob returns NaN iff some sample with index below
num_samples has a field amplitude that is NaN or strictly below the
amplitude threshold, and otherwise returns exactly the product of all
num_samples per-sample amplitudes together with the position and
tangent of sample num_samples - 1 as the proposed new state. -/
theorem rand_path_prob_spec {α : Type} [LinearOrderedField α] (S : Cfg α)
    (fod : Point α → Point α → Option α) (samples : ℕ → Point α × Point α) :
    (rand_path_prob S fod samples = none ↔
      ∃ i < S.num_samples, fod (samples i).1 (samples i).2 = none ∨
        ∃ a, fod (samples i).1 (samples i).2 = some a ∧ a < S.threshold) ∧
    (∀ g : ℕ → α,
      (∀ i < S.num_samples,
        fod (samples i).1 (samples i).2 = some (g i) ∧ S.threshold ≤ g i) →
      rand_path_prob S fod samples =
        some (((List.range S.num_samples).map g).prod,
          (samples (S.num_samples - 1)).1, (samples (S.num_samples - 1)).2)) := by
  constructor
  · unfold rand_path_prob
    cases hp : pathProbAux S.threshold
        (fun i => fod (samples i).1 (samples i).2) (List.range S.num_samples) 1 with
    | none =>
      have hex := (pathProbAux_eq_none_iff S.threshold
        (fun i => fod (samples i).1 (samples i).2) (List.range S.num_samples) 1).mp hp
      constructor
      · intro _
        rcases hex with ⟨i, hi, hbad⟩
        exact ⟨i, List.mem_range.mp hi, hbad⟩
      · intro _; rfl
    | some p =>
      constructor
      · intro he; cases he
      · rintro ⟨i, hi, hbad⟩
        have hn := (pathProbAux_eq_none_iff S.threshold
          (fun i => fod (samples i).1 (samples i).2)
          (List.range S.num_samples) 1).mpr ⟨i, List.mem_range.mpr hi, hbad⟩
        rw [hp] at hn; cases hn
  · intro g hg
    unfold rand_path_prob
    rw [pathProbAux_eq_some S.threshold _ g (List.range S.num_samples) 1
      (fun i hi => hg i (List.mem_range.mp hi))]
    rw [one_mul]

/-- Witness for C6 at a concrete input: two samples of amplitude 2
above threshold 1 give joint probability 4 and the sample-1 state. -/
theorem rand_path_prob_spec_witness :
    rand_path_prob (⟨2, 1, 1, 1, 1, 1, none⟩ : Cfg ℚ) (fun _ _ => some 2)
      (fun _ => (⟨0, 0, 0⟩, ⟨1, 0, 0⟩)) = some (4, ⟨0, 0, 0⟩, ⟨1, 0, 0⟩) := by
  have h := (rand_path_prob_spec (⟨2, 1, 1, 1, 1, 1, none⟩ : Cfg ℚ)
    (fun _ _ => some 2) (fun _ => (⟨0, 0, 0⟩, ⟨1, 0, 0⟩))).2 (fun _ => 2)
    (fun i _ => ⟨rfl, by norm_num⟩)
  rw [h]; norm_num [List.range_succ]

/-- C8: with a configured fixed initial direction and data available,
init evaluates the field amplitude exactly once, succeeds iff the
amplitude is defined and strictly exceeds the initialization threshold
(seeding prev_prob_val with amplitude ^ num_samples), and consumes no
random trial budget. -/
theorem init_fixed_dir_spec {α : Type} [LinearOrderedField α] (S : Cfg α)
    (rsqrt : α → α) (fod : Point α → Option α) (rngdir : ℕ → Point α)
    (d0 d : Point α) (hd : S.init_dir = some d) :
    ((init S rsqrt fod rngdir true d0).ok = true ↔
      ∃ v, fod d = some v ∧ S.init_threshold < v) ∧
    (∀ v, fod d = some v → S.init_threshold < v →
      (init S rsqrt fod rngdir true d0).prev = some (v ^ S.num_samples)) ∧
    (init S rsqrt fod rngdir true d0).fod_evals = 1 ∧
    (init S rsqrt fod rngdir true d0).rng_draws = 0 := by
  cases hf : fod d with
  | none =>
    have hq : init S rsqrt fod rngdir true d0 =
        { ok := false, dir := d, prev := none, rng_draws := 0, fod_evals := 1 } := by
      simp only [init, hd, hf]
    rw [hq]
    refine ⟨?_, ?_, rfl, rfl⟩
    · constructor
      · intro h; cases h
      · rintro ⟨v, hv, _⟩; cases hv
    · intro v hv; cases hv
  | some v =>
    by_cases hth : S.init_threshold < v
    · have hq : init S rsqrt fod rngdir true d0 =
          { ok := true, dir := d, prev := some (v ^ S.num_samples),
            rng_draws := 0, fod_evals := 1 } := by
        simp only [init, hd, hf, if_pos hth]
      rw [hq]
      refine ⟨⟨fun _ => ⟨v, rfl, hth⟩, fun _ => rfl⟩, ?_, rfl, rfl⟩
      intro w hw _
      injection hw with hw; subst hw; rfl
    · have hq : init S rsqrt fod rngdir true d0 =
          { ok := false, dir := d, prev := none, rng_draws := 0, fod_evals := 1 } := by
        simp only [init, hd, hf, if_neg hth]
      rw [hq]
      refine ⟨?_, ?_, rfl, rfl⟩
      · constructor
        · intro h; cases h
        · rintro ⟨w, hw, hthw⟩
          injection hw with hw; subst hw; exact absurd hthw hth
      · intro w hw hthw
        injection hw with hw; subst hw; exact absurd hthw hth

/-- Witness for C8 at a concrete input: fixed direction with amplitude
2 above initialization threshold 1 makes init succeed. -/
theorem init_fixed_dir_spec_witness :
    (init (⟨1, 1, 1, 1, 1, 1, some ⟨1, 0, 0⟩⟩ : Cfg ℚ) id (fun _ => some 2)
      (fun _ => ⟨1, 0, 0⟩) true ⟨0, 0, 0⟩).ok = true := by
  have h := (init_fixed_dir_spec (⟨1, 1, 1, 1, 1, 1, some ⟨1, 0, 0⟩⟩ : Cfg ℚ) id
    (fun _ => some 2) (fun _ => ⟨1, 0, 0⟩) ⟨0, 0, 0⟩ ⟨1, 0, 0⟩ rfl).1
  exact h.mpr ⟨2, rfl, by norm_num⟩

/-- C4 counterexample: with current direction (1,0,0) and perturbed end
direction (-2,0,0) the dot product is -2; the source computes
cos_theta = -2 (no lower clamp) while the claimed clamp to [-1,1]
yields -1. -/
theorem cos_theta_no_lower_clamp_cex :
    cos_theta_code (⟨1, 0, 0⟩ : Point ℚ) ⟨-2, 0, 0⟩ = -2 ∧
    cos_theta_spec (⟨1, 0, 0⟩ : Point ℚ) ⟨-2, 0, 0⟩ = -1 ∧
    cos_theta_code (⟨1, 0, 0⟩ : Point ℚ) ⟨-2, 0, 0⟩ ≠
      cos_theta_spec (⟨1, 0, 0⟩ : Point ℚ) ⟨-2, 0, 0⟩ := by
  have hdot : (Point.dot (⟨-2, 0, 0⟩ : Point ℚ) ⟨1, 0, 0⟩) = -2 := by
    norm_num [Point.dot]
  have h1 : cos_theta_code (⟨1, 0, 0⟩ : Point ℚ) ⟨-2, 0, 0⟩ = -2 := by
    unfold cos_theta_code
    rw [hdot]
    exact min_eq_left (by norm_num)
  have h2 : cos_theta_spec (⟨1, 0, 0⟩ : Point ℚ) ⟨-2, 0, 0⟩ = -1 := by
    unfold cos_theta_spec
    rw [hdot, min_eq_left (by norm_num : (-2 : ℚ) ≤ 1)]
    exact max_eq_right (by norm_num)
  refine ⟨h1, h2, ?_⟩
  rw [h1, h2]
  norm_num

/-- C4 amended: cos_theta is the dot product clamped from above at +1
only (std::min against 1); when the dot product is at least -1 this
agrees with the two-sided clamp of the spec, but a dot product below
-1 passes through unclamped. -/
theorem cos_theta_upper_clamp_only {α : Type} [LinearOrderedField α]
    (dir end_dir : Point α) :
    cos_theta_code dir end_dir ≤ 1 ∧
    (-1 ≤ end_dir.dot dir →
      cos_theta_code dir end_dir = cos_theta_spec dir end_dir) ∧
    (end_dir.dot dir < -1 → cos_theta_code dir end_dir < -1) := by
  refine ⟨min_le_right _ _, fun h => ?_, fun h => ?_⟩
  · unfold cos_theta_code cos_theta_spec
    rw [max_eq_left (le_min h (by norm_num))]
  · unfold cos_theta_code
    calc min (end_dir.dot dir) 1 ≤ end_dir.dot dir := min_le_left _ _
    _ < -1 := h

/-- Witness for the amended C4 at a concrete input with dot product in
range, where the one-sided and two-sided clamps agree. -/
theorem cos_theta_upper_clamp_only_witness :
    cos_theta_code (⟨1, 0, 0⟩ : Point ℚ) ⟨0, 1, 0⟩ =
      cos_theta_spec (⟨1, 0, 0⟩ : Point ℚ) ⟨0, 1, 0⟩ :=
  (cos_theta_upper_clamp_only _ _).2.1 (by norm_num [Point.dot])

/-- C2 counterexample: with previous best probability 3/2, an all-NaN
probe (so max_val_actual = 0, max(prev, actual) = 3/2) and threshold 2,
the scaled envelope 3/2 * 1.5 = 9/4 is finite and at least the
threshold, and the oracle streams would certainly accept at trial 0,
yet next returns not-accepted: the check is applied before the 1.5
multiplication, refuting the claim's iff. -/
theorem next_check_before_scaling_cex :
    (next (⟨1, 1, 1, 1, 1, 2, none⟩ : Cfg ℚ) id
      ⟨⟨0, 0, 0⟩, ⟨1, 0, 0⟩, some (3 / 2), 0, 0⟩ (fun _ => none)
      (fun _ => ⟨some 3, ⟨0, 0, 0⟩, ⟨1, 0, 0⟩⟩) (fun _ => 0)).1 = false ∧
    ¬ (cMAX (some (3 / 2 : ℚ)) (probeMax (fun _ => (none : Option ℚ))) * (3 / 2) <
        (⟨1, 1, 1, 1, 1, 2, none⟩ : Cfg ℚ).prob_threshold) := by
  constructor
  · rw [next_eq]
    norm_num [probeMax_none, cMAX]
  · norm_num [probeMax_none, cMAX]

/-- C2 amended: the envelope used in the sampling loop is
max(previous_step_best_probability, max_val_actual) * 1.5, but the
probe-failure termination check compares the UNSCALED
max(previous_step_best_probability, max_val_actual) against
prob_threshold, before the multiplication by 1.5 (and the non-finite
test in the source is isnan, which can never fire since the MAX of a
possibly-NaN previous value and the real probe maximum is real): if
the unscaled value is below the threshold the step fails, and any
accepted step passed a trial whose acceptance ratio used the scaled
envelope. -/
theorem next_check_unscaled {α : Type} [LinearOrderedField α] (S : Cfg α)
    (rsqrt : α → α) (st : State α) (probe : ℕ → Option α) (trials : ℕ → Trial α)
    (unif : ℕ → α) :
    (cMAX st.prev_prob_val (probeMax probe) < S.prob_threshold →
      (next S rsqrt st probe trials unif).1 = false) ∧
    ((next S rsqrt st probe trials unif).1 = true →
      ∃ n, ∃ v, (trials n).prob = some v ∧ S.prob_threshold < v ∧
        unif n < v / (cMAX st.prev_prob_val (probeMax probe) * (3 / 2))) := by
  constructor
  · intro h
    rw [next_eq, if_pos h]
  · intro h
    rw [next_eq] at h
    by_cases hc : cMAX st.prev_prob_val (probeMax probe) < S.prob_threshold
    · rw [if_pos hc] at h; cases h
    · rw [if_neg hc] at h
      obtain ⟨n, _, v, hv, hth, hu, _⟩ :=
        nextLoop_accept _ _ _ _ _ _ _ h
      exact ⟨n, v, hv, hth, hu⟩

/-- Witness for the amended C2 at a concrete input: unscaled envelope
1 below threshold 2 makes the step fail at the probe check. -/
theorem next_check_unscaled_witness :
    (next (⟨1, 1, 1, 1, 1, 2, none⟩ : Cfg ℚ) id
      ⟨⟨0, 0, 0⟩, ⟨1, 0, 0⟩, some 1, 0, 0⟩ (fun _ => none)
      (fun _ => ⟨none, ⟨0, 0, 0⟩, ⟨1, 0, 0⟩⟩) (fun _ => 0)).1 = false :=
  (next_check_unscaled _ id _ _ _ _).1 (by norm_num [probeMax_none, cMAX])

/-- C3 counterexample: a probe-failure (not-accepted) return of next
overwrites previous_step_best_probability with the probe maximum
(here: from 5 to 0), refuting the claim that it is left unchanged on a
non-accepted branch. -/
theorem next_prev_updated_on_failure_cex :
    (next (⟨1, 1, 1, 1, 1, 10, none⟩ : Cfg ℚ) id
      ⟨⟨0, 0, 0⟩, ⟨1, 0, 0⟩, some 5, 0, 0⟩ (fun _ => none)
      (fun _ => ⟨none, ⟨0, 0, 0⟩, ⟨1, 0, 0⟩⟩) (fun _ => 0)).1 = false ∧
    (next (⟨1, 1, 1, 1, 1, 10, none⟩ : Cfg ℚ) id
      ⟨⟨0, 0, 0⟩, ⟨1, 0, 0⟩, some 5, 0, 0⟩ (fun _ => none)
      (fun _ => ⟨none, ⟨0, 0, 0⟩, ⟨1, 0, 0⟩⟩) (fun _ => 0)).2.prev_prob_val = some 0 ∧
    (⟨⟨0, 0, 0⟩, ⟨1, 0, 0⟩, some 5, 0, 0⟩ : State ℚ).prev_prob_val ≠ some 0 := by
  refine ⟨?_, ?_, ?_⟩
  · rw [next_eq]
    norm_num [probeMax_none, cMAX]
  · rw [next_eq]
    norm_num [probeMax_none, cMAX]
  · simp

/-- C3 amended: next overwrites previous_step_best_probability with the
probe's max_val_actual UNCONDITIONALLY (on probe-failure, exhaustion and
acceptance alike; on acceptance it holds the probe maximum, not the
accepted path's probability), while position, direction and the
diagnostic counters are updated only on acceptance: any not-accepted
return leaves them unchanged, and an accepted return increments
num_sample_runs by one and advances mean_sample_num by the accepting
trial index. -/
theorem next_state_effects {α : Type} [LinearOrderedField α] (S : Cfg α)
    (rsqrt : α → α) (st : State α) (probe : ℕ → Option α) (trials : ℕ → Trial α)
    (unif : ℕ → α) :
    (next S rsqrt st probe trials unif).2.prev_prob_val = some (probeMax probe) ∧
    ((next S rsqrt st probe trials unif).1 = false →
      (next S rsqrt st probe trials unif).2.pos = st.pos ∧
      (next S rsqrt st probe trials unif).2.dir = st.dir ∧
      (next S rsqrt st probe trials unif).2.mean_sample_num = st.mean_sample_num ∧
      (next S rsqrt st probe trials unif).2.num_sample_runs = st.num_sample_runs) ∧
    ((next S rsqrt st probe trials unif).1 = true →
      (next S rsqrt st probe trials unif).2.num_sample_runs = st.num_sample_runs + 1 ∧
      ∃ n, (next S rsqrt st probe trials unif).2.mean_sample_num =
        st.mean_sample_num + n) := by
  rw [next_eq]
  by_cases hc : cMAX st.prev_prob_val (probeMax probe) < S.prob_threshold
  · rw [if_pos hc]
    exact ⟨rfl, fun _ => ⟨rfl, rfl, rfl, rfl⟩, fun h => by cases h⟩
  · rw [if_neg hc]
    refine ⟨nextLoop_prev _ _ _ _ _ _ _, ?_, ?_⟩
    · intro h
      rw [nextLoop_false_state _ _ _ _ _ _ _ h]
      exact ⟨rfl, rfl, rfl, rfl⟩
    · intro h
      obtain ⟨n, _, v, _, _, _, hstate⟩ := nextLoop_accept _ _ _ _ _ _ _ h
      rw [hstate]
      exact ⟨rfl, n, rfl⟩

/-- Witness for the amended C3 at a concrete input: a probe-failure
return leaves the diagnostic step counter unchanged. -/
theorem next_state_effects_witness :
    (next (⟨1, 1, 1, 1, 1, 10, none⟩ : Cfg ℚ) id
      ⟨⟨1, 1, 1⟩, ⟨1, 0, 0⟩, some 5, 3, 4⟩ (fun _ => none)
      (fun _ => ⟨none, ⟨0, 0, 0⟩, ⟨1, 0, 0⟩⟩) (fun _ => 0)).2.num_sample_runs = 4 :=
  ((next_state_effects _ id _ _ _ _).2.1
    (by rw [next_eq]; norm_num [probeMax_none, cMAX])).2.2.2

/-- C5: next accepts (returns true, storing the trial's final position
and its normalised final tangent) only for a trial whose path
probability is an ordinary value strictly above prob_threshold; a NaN
probability or one at or below the threshold is never accepted. -/
theorem next_accept_above_threshold {α : Type} [LinearOrderedField α] (S : Cfg α)
    (rsqrt : α → α) (st : State α) (probe : ℕ → Option α) (trials : ℕ → Trial α)
    (unif : ℕ → α) :
    (next S rsqrt st probe trials unif).1 = true →
    ∃ n, ∃ v, (trials n).prob = some v ∧ S.prob_threshold < v ∧
      (next S rsqrt st probe trials unif).2.pos = (trials n).tpos ∧
      (next S rsqrt st probe trials unif).2.dir =
        Point.normalise rsqrt (trials n).tdir := by
  intro h
  rw [next_eq] at h ⊢
  by_cases hc : cMAX st.prev_prob_val (probeMax probe) < S.prob_threshold
  · rw [if_pos hc] at h; cases h
  · rw [if_neg hc] at h ⊢
    obtain ⟨n, _, v, hv, hth, _, hstate⟩ := nextLoop_accept _ _ _ _ _ _ _ h
    rw [hstate]
    exact ⟨n, v, hv, hth, rfl, rfl⟩

lemma range_one : List.range 1 = [0] := rfl

/-- Witness for C5 at a concrete input: a trial of probability 2 above
threshold 1 is accepted under a certain uniform draw. -/
theorem next_accept_above_threshold_witness :
    ∃ n, ∃ v,
      ((fun _ : ℕ => (⟨some 2, ⟨7, 8, 9⟩, ⟨1, 0, 0⟩⟩ : Trial ℚ)) n).prob = some v ∧
      (⟨1, 1, 1, 1, 1, 1, none⟩ : Cfg ℚ).prob_threshold < v ∧
      (next (⟨1, 1, 1, 1, 1, 1, none⟩ : Cfg ℚ) id
        ⟨⟨0, 0, 0⟩, ⟨1, 0, 0⟩, some 5, 0, 0⟩ (fun _ => none)
        (fun _ => ⟨some 2, ⟨7, 8, 9⟩, ⟨1, 0, 0⟩⟩) (fun _ => 0)).2.pos =
        ((fun _ : ℕ => (⟨some 2, ⟨7, 8, 9⟩, ⟨1, 0, 0⟩⟩ : Trial ℚ)) n).tpos ∧
      (next (⟨1, 1, 1, 1, 1, 1, none⟩ : Cfg ℚ) id
        ⟨⟨0, 0, 0⟩, ⟨1, 0, 0⟩, some 5, 0, 0⟩ (fun _ => none)
        (fun _ => ⟨some 2, ⟨7, 8, 9⟩, ⟨1, 0, 0⟩⟩) (fun _ => 0)).2.dir =
        Point.normalise id
          ((fun _ : ℕ => (⟨some 2, ⟨7, 8, 9⟩, ⟨1, 0, 0⟩⟩ : Trial ℚ)) n).tdir :=
  next_accept_above_threshold (⟨1, 1, 1, 1, 1, 1, none⟩ : Cfg ℚ) id
    ⟨⟨0, 0, 0⟩, ⟨1, 0, 0⟩, some 5, 0, 0⟩ (fun _ => none)
    (fun _ => ⟨some 2, ⟨7, 8, 9⟩, ⟨1, 0, 0⟩⟩) (fun _ => 0)
    (by rw [next_eq]; norm_num [probeMax_none, cMAX, nextLoop, range_one])

/-- C7: the sampling loop of next runs at most 10000 trials when the
probe maximum exceeded prob_threshold and at most max_trials otherwise:
an accepted step accepted at some trial index below that budget, and if
no trial index below the budget satisfies the acceptance conditions the
call returns not-accepted. -/
theorem next_trial_budget {α : Type} [LinearOrderedField α] (S : Cfg α)
    (rsqrt : α → α) (st : State α) (probe : ℕ → Option α) (trials : ℕ → Trial α)
    (unif : ℕ → α) :
    ((next S rsqrt st probe trials unif).1 = true →
      ∃ n < (if S.prob_threshold < probeMax probe then 10000 else S.max_trials),
        ∃ v, (trials n).prob = some v ∧ S.prob_threshold < v ∧
          unif n < v / (cMAX st.prev_prob_val (probeMax probe) * (3 / 2))) ∧
    ((∀ n < (if S.prob_threshold < probeMax probe then 10000 else S.max_trials),
        ¬ ∃ v, (trials n).prob = some v ∧ S.prob_threshold < v ∧
          unif n < v / (cMAX st.prev_prob_val (probeMax probe) * (3 / 2))) →
      (next S rsqrt st probe trials unif).1 = false) := by
  constructor
  · intro h
    rw [next_eq] at h
    by_cases hc : cMAX st.prev_prob_val (probeMax probe) < S.prob_threshold
    · rw [if_pos hc] at h; cases h
    · rw [if_neg hc] at h
      obtain ⟨n, hn, v, hv, hth, hu, _⟩ := nextLoop_accept _ _ _ _ _ _ _ h
      exact ⟨n, List.mem_range.mp hn, v, hv, hth, hu⟩
  · intro hall
    rw [next_eq]
    by_cases hc : cMAX st.prev_prob_val (probeMax probe) < S.prob_threshold
    · rw [if_pos hc]
    · rw [if_neg hc]
      exact nextLoop_exhaust _ _ _ _ _ _ _
        (fun n hn => hall n (List.mem_range.mp hn))

/-- Witness for C7 at a concrete input: with every loop trial NaN and
budget max_trials = 1, the step exhausts its budget and fails. -/
theorem next_trial_budget_witness :
    (next (⟨1, 1, 1, 1, 1, 1, none⟩ : Cfg ℚ) id
      ⟨⟨0, 0, 0⟩, ⟨1, 0, 0⟩, some 5, 0, 0⟩ (fun _ => none)
      (fun _ => ⟨none, ⟨0, 0, 0⟩, ⟨1, 0, 0⟩⟩) (fun _ => 0)).1 = false :=
  (next_trial_budget _ id _ _ _ _).2 (by
    intro n _
    rintro ⟨v, hv, _⟩
    simp at hv)

/-- C10: the per-voxel bounds-check transform writes NaN to all three
output components and increments the match count exactly when the input
vector is within tolerance of the marker in the isMuchSmallerThan sense
or both marker and input contain a NaN component; in every other case
the three input components pass through unchanged with the count
untouched. -/
theorem boundsCheck_spec {α : Type} [LinearOrderedField α]
    (tolerance : α) (vec val : FV3 α) (count : ℕ) :
    (boundsCheck tolerance vec val count = (⟨none, none, none⟩, count + 1) ↔
      ((FV3.sub vec val).isMuchSmallerThan tolerance (dummy_precision α)
        || (vec.hasNaN && val.hasNaN)) = true) ∧
    (((FV3.sub vec val).isMuchSmallerThan tolerance (dummy_precision α)
        || (vec.hasNaN && val.hasNaN)) = false →
      boundsCheck tolerance vec val count = (val, count)) := by
  cases hb : ((FV3.sub vec val).isMuchSmallerThan tolerance (dummy_precision α)
      || (vec.hasNaN && val.hasNaN)) with
  | true => simp [boundsCheck, hb]
  | false =>
    constructor
    · simp only [boundsCheck, hb, Bool.false_eq_true, if_false]
      constructor
      · intro he
        have h2 := congrArg Prod.snd he
        simp at h2
      · intro h; cases h
    · intro _
      simp [boundsCheck, hb]

lemma Point.ext3 {α : Type} (u v : Point α)
    (hx : u.x = v.x) (hy : u.y = v.y) (hz : u.z = v.z) : u = v := by
  cases u; cases v
  cases hx; cases hy; cases hz
  rfl

lemma dot_expand_sub_smul (u v : Point ℝ) (c : ℝ) :
    (u - c • v).dot (u - c • v) =
      u.dot u - 2 * c * (u.dot v) + c ^ 2 * (v.dot v) := by
  cases u; cases v
  simp [Point.dot]
  ring

lemma dot_sub_smul_right (u v d : Point ℝ) (c : ℝ) :
    u.dot (v - c • d) = u.dot v - c * (u.dot d) := by
  cases u; cases v; cases d
  simp [Point.dot]
  ring

lemma dot_comm3 (u v : Point ℝ) : u.dot v = v.dot u := by
  cases u; cases v
  simp [Point.dot]
  ring

lemma dot_normalise_self (w : Point ℝ) :
    (Point.normalise Real.sqrt w).dot (Point.normalise Real.sqrt w) =
      w.dot w / Real.sqrt (w.dot w) ^ 2 := by
  cases w
  simp [Point.normalise, Point.dot]
  ring

lemma dot_normalise_right (u w : Point ℝ) :
    u.dot (Point.normalise Real.sqrt w) = u.dot w / Real.sqrt (w.dot w) := by
  cases u; cases w
  simp [Point.normalise, Point.dot]
  ring

lemma smul_normalise_eq (w : Point ℝ) (hne : Real.sqrt (w.dot w) ≠ 0) :
    Real.sqrt (w.dot w) • Point.normalise Real.sqrt w = w := by
  cases w
  apply Point.ext3 <;> simp [Point.normalise, Point.dot] at hne ⊢ <;> field_simp

lemma arcPos_sub_center (pos dir curv : Point ℝ) (R θ : ℝ) (n i : ℕ) :
    arcPos Real.sin Real.cos pos dir curv R θ n i - (pos + R • curv) =
      (R * Real.sin (arcAngle θ n i)) • dir +
        (-(R * Real.cos (arcAngle θ n i))) • curv := by
  cases pos; cases dir; cases curv
  apply Point.ext3 <;> simp [arcPos] <;> ring

lemma circle_dot (dir curv : Point ℝ) (R s t : ℝ)
    (hdd : dir.dot dir = 1) (hcc : curv.dot curv = 1) (hdc : dir.dot curv = 0)
    (hst : s ^ 2 + t ^ 2 = 1) :
    ((R * s) • dir + (-(R * t)) • curv).dot
      ((R * s) • dir + (-(R * t)) • curv) = R ^ 2 := by
  cases dir; cases curv
  simp [Point.dot] at hdd hcc hdc ⊢
  linear_combination (R ^ 2 * s ^ 2) * hdd + (R ^ 2 * t ^ 2) * hcc -
    (2 * R ^ 2 * s * t) * hdc + R ^ 2 * hst

/-- C9: in the curved case (unit current and perturbed end directions
whose dot product c lies strictly between -1 and 1, so theta =
arccos c is nonzero), get_path produces exactly num_samples samples
whose i-th member sits at arc angle theta*(i+1)/num_samples — uniform
spacing theta/num_samples — with position arcPos and tangent arcTan
along the circle through the start with curvature axis curv; the last
sample's tangent equals the perturbed end direction exactly, and every
sample position lies at squared distance R^2 = (step_size/theta)^2
from the arc's center pos + R • curv. -/
theorem get_path_curved_spec (S : Cfg ℝ) (pos dir end_dir : Point ℝ)
    (c θ R : ℝ) (curv center : Point ℝ)
    (hn : 1 ≤ S.num_samples)
    (hdir : dir.dot dir = 1) (hend : end_dir.dot end_dir = 1)
    (hc : c = end_dir.dot dir) (hlo : -1 < c) (hhi : c < 1)
    (hθ : θ = Real.arccos c) (hR : R = S.step_size / θ)
    (hcurv : curv = Point.normalise Real.sqrt (end_dir - c • dir))
    (hcenter : center = pos + R • curv) :
    get_path Real.sin Real.cos Real.arccos Real.sqrt S pos dir end_dir =
      (List.range S.num_samples).map (fun (i : ℕ) =>
        (arcPos Real.sin Real.cos pos dir curv R θ S.num_samples i,
         arcTan Real.sin Real.cos dir curv θ S.num_samples i)) ∧
    arcTan Real.sin Real.cos dir curv θ S.num_samples (S.num_samples - 1) = end_dir ∧
    ∀ i < S.num_samples,
      (arcPos Real.sin Real.cos pos dir curv R θ S.num_samples i - center).dot
        (arcPos Real.sin Real.cos pos dir curv R θ S.num_samples i - center) =
        R ^ 2 := by
  have h1c2 : (0 : ℝ) < 1 - c ^ 2 := by nlinarith
  have hww : (end_dir - c • dir).dot (end_dir - c • dir) = 1 - c ^ 2 := by
    rw [dot_expand_sub_smul, hend, hdir, ← hc]
    ring
  have hsqrt_pos : 0 < Real.sqrt ((end_dir - c • dir).dot (end_dir - c • dir)) := by
    rw [hww]
    exact Real.sqrt_pos.mpr h1c2
  have hsin : Real.sin θ = Real.sqrt ((end_dir - c • dir).dot (end_dir - c • dir)) := by
    rw [hθ, Real.sin_arccos, hww]
  have hcos : Real.cos θ = c := by
    rw [hθ]
    exact Real.cos_arccos (le_of_lt hlo) (le_of_lt hhi)
  have hθne : θ ≠ 0 := by
    rw [hθ]
    intro h0
    rw [Real.arccos_eq_zero] at h0
    linarith
  have hcc : curv.dot curv = 1 := by
    rw [hcurv, dot_normalise_self,
      Real.sq_sqrt (by rw [hww]; linarith :
        (0 : ℝ) ≤ (end_dir - c • dir).dot (end_dir - c • dir))]
    exact div_self (by rw [hww]; linarith)
  have hdc : dir.dot curv = 0 := by
    rw [hcurv, dot_normalise_right]
    have hdw : dir.dot (end_dir - c • dir) = 0 := by
      rw [dot_sub_smul_right, dot_comm3 dir end_dir, ← hc, hdir]
      ring
    rw [hdw, zero_div]
  have hsc : Real.sin θ • curv = end_dir - c • dir := by
    rw [hsin, hcurv]
    exact smul_normalise_eq _ (ne_of_gt hsqrt_pos)
  have hlast : Real.cos θ • dir + Real.sin θ • curv = end_dir := by
    rw [hcos, hsc]
    apply Point.ext3 <;> simp
  have hct : cos_theta_code dir end_dir = c := by
    unfold cos_theta_code
    rw [← hc]
    exact min_eq_left (le_of_lt hhi)
  have hgp : get_path Real.sin Real.cos Real.arccos Real.sqrt S pos dir end_dir =
      ((List.range (S.num_samples - 1)).map (fun (i : ℕ) =>
        (arcPos Real.sin Real.cos pos dir curv R θ S.num_samples i,
         arcTan Real.sin Real.cos dir curv θ S.num_samples i))) ++
      [(pos + R • (Real.sin θ • dir + (1 - c) • curv), end_dir)] := by
    simp only [get_path, hct, ← hθ, ← hcurv, ← hR, if_neg hθne]
    rfl
  have hang : arcAngle θ S.num_samples (S.num_samples - 1) = θ := by
    unfold arcAngle
    have hnR : ((S.num_samples : ℝ)) ≠ 0 := Nat.cast_ne_zero.mpr (by omega)
    rw [Nat.cast_sub hn]
    field_simp
  have htan_last :
      arcTan Real.sin Real.cos dir curv θ S.num_samples (S.num_samples - 1) = end_dir := by
    unfold arcTan
    rw [hang]
    exact hlast
  refine ⟨?_, htan_last, ?_⟩
  · rw [hgp]
    have hsplit : List.range S.num_samples =
        List.range (S.num_samples - 1) ++ [S.num_samples - 1] := by
      conv_lhs => rw [show S.num_samples = (S.num_samples - 1) + 1 from
        (Nat.succ_pred_eq_of_pos hn).symm]
      exact List.range_succ (S.num_samples - 1)
    rw [hsplit, List.map_append]
    congr 1
    simp only [List.map_cons, List.map_nil]
    congr 1
    rw [Prod.mk.injEq]
    constructor
    · unfold arcPos
      rw [hang, hcos]
    · exact htan_last.symm
  · intro i _
    rw [hcenter, arcPos_sub_center]
    exact circle_dot dir curv R (Real.sin (arcAngle θ S.num_samples i))
      (Real.cos (arcAngle θ S.num_samples i)) hdir hcc hdc
      (Real.sin_sq_add_cos_sq _)

/-- Witness for C9 at a concrete input: current direction (1,0,0),
perturbed end direction (0,1,0), two samples; the last sample's tangent
is exactly the perturbed end direction. -/
theorem get_path_curved_spec_witness :
    arcTan Real.sin Real.cos ⟨1, 0, 0⟩
      (Point.normalise Real.sqrt ((⟨0, 1, 0⟩ : Point ℝ) - (0 : ℝ) • ⟨1, 0, 0⟩))
      (Real.arccos 0) 2 1 = ⟨0, 1, 0⟩ :=
  (get_path_curved_spec (⟨2, 1, 1, 1, 1, 1, none⟩ : Cfg ℝ) ⟨0, 0, 0⟩ ⟨1, 0, 0⟩ ⟨0, 1, 0⟩
    0 (Real.arccos 0) ((⟨2, 1, 1, 1, 1, 1, none⟩ : Cfg ℝ).step_size / Real.arccos 0)
    (Point.normalise Real.sqrt ((⟨0, 1, 0⟩ : Point ℝ) - (0 : ℝ) • ⟨1, 0, 0⟩))
    ((⟨0, 0, 0⟩ : Point ℝ) +
      ((⟨2, 1, 1, 1, 1, 1, none⟩ : Cfg ℝ).step_size / Real.arccos 0) •
        Point.normalise Real.sqrt ((⟨0, 1, 0⟩ : Point ℝ) - (0 : ℝ) • ⟨1, 0, 0⟩))
    (by norm_num) (by norm_num [Point.dot]) (by norm_num [Point.dot])
    (by norm_num [Point.dot]) (by norm_num) (by norm_num)
    rfl rfl rfl rfl).2.1

/-- C1 (code bug): in the straight case (perturbed end direction with
dot product at least 1 against the current direction, so cos_theta
clamps to 1 and theta = 0) get_path writes num_samples + 1 samples —
the loop at line 211 runs for i = 0 .. num_samples INCLUSIVE — at
uniform spacing step_size/num_samples along the current direction with
every tangent equal to the current direction; the write at index
num_samples is one past the end of the caller's buffers of size
num_samples (declared at line 168). -/
theorem get_path_straight_writes_extra (S : Cfg ℝ) (pos dir end_dir : Point ℝ)
    (h : 1 ≤ end_dir.dot dir) :
    get_path Real.sin Real.cos Real.arccos Real.sqrt S pos dir end_dir =
      (List.range (S.num_samples + 1)).map (fun (i : ℕ) =>
        (pos + (((i : ℝ) + 1) * (S.step_size / (S.num_samples : ℝ))) • dir, dir)) ∧
    (get_path Real.sin Real.cos Real.arccos Real.sqrt S pos dir end_dir).length =
      S.num_samples + 1 := by
  have hct : cos_theta_code dir end_dir = 1 := min_eq_right h
  have hgp : get_path Real.sin Real.cos Real.arccos Real.sqrt S pos dir end_dir =
      (List.range (S.num_samples + 1)).map (fun (i : ℕ) =>
        (pos + (((i : ℝ) + 1) * (S.step_size / (S.num_samples : ℝ))) • dir, dir)) := by
    simp only [get_path, hct, Real.arccos_one, if_true]
  exact ⟨hgp, by rw [hgp, List.length_map, List.length_range]⟩

/-- Witness for C1 at a concrete input: with num_samples = 1 and
end direction equal to the (unit) current direction, get_path produces
2 samples where the claim and the buffer size say 1. -/
theorem get_path_straight_writes_extra_witness :
    (get_path Real.sin Real.cos Real.arccos Real.sqrt
      (⟨1, 1, 1, 1, 1, 1, none⟩ : Cfg ℝ) ⟨0, 0, 0⟩ ⟨1, 0, 0⟩ ⟨1, 0, 0⟩).length = 2 := by
  have h := (get_path_straight_writes_extra (⟨1, 1, 1, 1, 1, 1, none⟩ : Cfg ℝ)
    ⟨0, 0, 0⟩ ⟨1, 0, 0⟩ ⟨1, 0, 0⟩ (by norm_num [Point.dot])).2
  simpa using h

/-- Witness for C10 at a concrete input: marker (0,0,0), input
(1,0,0), tolerance 1 — no match, so the input passes through. -/
theorem boundsCheck_spec_witness :
    boundsCheck (1 : ℚ) ⟨some 0, some 0, some 0⟩ ⟨some 1, some 0, some 0⟩ 0 =
      (⟨some 1, some 0, some 0⟩, 0) :=
  (boundsCheck_spec 1 ⟨some 0, some 0, some 0⟩ ⟨some 1, some 0, some 0⟩ 0).2 (by
    simp only [FV3.sub, osub, FV3.isMuchSmallerThan, FV3.hasNaN, dummy_precision,
      Option.isNone_some, Bool.and_self, Bool.or_false]
    rw [decide_eq_false_iff_not]
    norm_num)

end MR
